import Mathlib

/-!
Shallow embedding of the todotxt4js core pipeline (Scanner, Parser, Task
record, TodoList) translated from the TypeScript sources
`src/Scanner.ts`, `src/Parser.ts`, `src/Todo.ts`, `src/TodoList.ts`,
together with theorems settling the specification claims about it.
Strings are modelled by Lean `String`, operated on through their
character lists; JavaScript truthiness of strings (empty string is
falsy) is made explicit where the source relies on it.
-/

namespace Todotxt

/-! ### Character classes (ASCII, as used by the source regexes) -/

def isUpperAlpha (c : Char) : Bool := 65 ≤ c.toNat && c.toNat ≤ 90

def isLowerAlpha (c : Char) : Bool := 97 ≤ c.toNat && c.toNat ≤ 122

def isAsciiLetter (c : Char) : Bool := isUpperAlpha c || isLowerAlpha c

def isAsciiDigit (c : Char) : Bool := 48 ≤ c.toNat && c.toNat ≤ 57

/-- JavaScript `\s` restricted to its ASCII part (space, tab, newline,
carriage return, vertical tab, form feed); the repository's inputs and
all claims stay within ASCII whitespace. -/
def isJsWs (c : Char) : Bool :=
  c = ' ' || c = '\t' || c = '\n' || c = '\r' || c.toNat = 11 || c.toNat = 12

/-- ASCII case mapping of `String.prototype.toUpperCase` (the claims'
inputs are ASCII). -/
def jsToUpper (c : Char) : Char :=
  if isLowerAlpha c then Char.ofNat (c.toNat - 32) else c

/-! ### String helpers -/

/-- First character test (used for `startsWith("@")` etc. on one-character
prefixes). -/
def headIs (c : Char) (s : String) : Bool :=
  match s.data with
  | c' :: _ => c' = c
  | [] => false

/-- Last character test (used for `endsWith(")")` on one-character
suffixes). -/
def lastIs (c : Char) (s : String) : Bool :=
  match s.data.getLast? with
  | some c' => c' = c
  | none => false

/-- `s.slice(0, -1)`: drop the last character. -/
def dropLastChar (s : String) : String := ⟨s.data.dropLast⟩

/-- `s.charAt(i)` as an `Option` (JS returns `""` out of bounds). -/
def jsCharAt (s : String) (i : Nat) : Option Char := s.data.get? i

/-- `String.prototype.trim` (ASCII whitespace, see `isJsWs`). -/
def jsTrim (s : String) : String :=
  ⟨((s.data.dropWhile isJsWs).reverse.dropWhile isJsWs).reverse⟩

/-- Split on runs of whitespace, keeping only non-empty chunks: the
combination of `line.split(/\s+/)` with the `length > 0` filter in
`Scanner.scan`. -/
def splitWsAux : List Char → List Char → List (List Char)
  | acc, [] => if acc = [] then [] else [acc.reverse]
  | acc, c :: rest =>
    if isJsWs c then
      if acc = [] then splitWsAux [] rest
      else acc.reverse :: splitWsAux [] rest
    else splitWsAux (c :: acc) rest

def splitWs (s : String) : List String :=
  (splitWsAux [] s.data).map fun l => ⟨l⟩

/-! ### Token model (`src/Token.ts`) -/

inductive TokenType where
  | completion | priority | date | project | context | key | word
deriving DecidableEq, Repr

structure Token where
  type : TokenType
  value : String
deriving DecidableEq, Repr

/-! ### Scanner (`src/Scanner.ts`) -/

/-- `/^\([A-Z]\)$/` -/
def prioShaped (s : String) : Bool :=
  match s.data with
  | ['(', c, ')'] => isUpperAlpha c
  | _ => false

/-- `/^\d{4}-\d{2}-\d{2}$/` -/
def dateShaped (s : String) : Bool :=
  match s.data with
  | [a, b, c, d, h1, e, f, h2, g, h] =>
    isAsciiDigit a && isAsciiDigit b && isAsciiDigit c && isAsciiDigit d &&
    h1 = '-' && isAsciiDigit e && isAsciiDigit f && h2 = '-' &&
    isAsciiDigit g && isAsciiDigit h
  | _ => false

/-- `/^\+[^\s]+$/` -/
def projShaped (s : String) : Bool :=
  match s.data with
  | '+' :: rest => !rest.isEmpty && rest.all (fun c => !isJsWs c)
  | _ => false

/-- `/^@[^\s]+$/` -/
def ctxShaped (s : String) : Bool :=
  match s.data with
  | '@' :: rest => !rest.isEmpty && rest.all (fun c => !isJsWs c)
  | _ => false

/-- `/^[A-Za-z]+:$/` -/
def keyShaped (s : String) : Bool :=
  match s.data.dropLast, s.data.getLast? with
  | pre, some ':' => !pre.isEmpty && pre.all isAsciiLetter
  | _, _ => false

/-- `/^([A-Za-z]+:)(\S+)$/`: a non-empty all-letter run, the first colon,
and a non-empty remainder.  Returns the key (without the colon) and the
value substring. -/
def kvSplitAux : List Char → List Char → Option (List Char × List Char)
  | _, [] => none
  | acc, c :: rest =>
    if c = ':' then
      if acc.isEmpty || rest.isEmpty then none else some (acc.reverse, rest)
    else if isAsciiLetter c then kvSplitAux (c :: acc) rest
    else none

def kvSplit (s : String) : Option (String × String) :=
  (kvSplitAux [] s.data).map fun p => (⟨p.1⟩, ⟨p.2⟩)

/-- The `tokenDefinitions` table tried in priority order with `WORD` as
fallback. -/
def classifyByDefs (s : String) : Token :=
  if s = "x" then ⟨.completion, s⟩
  else if prioShaped s then ⟨.priority, s⟩
  else if dateShaped s then ⟨.date, s⟩
  else if projShaped s then ⟨.project, s⟩
  else if ctxShaped s then ⟨.context, s⟩
  else if keyShaped s then ⟨.key, s⟩
  else ⟨.word, s⟩

/-- Processing of one part in `Scanner.scan`: the combined key:value path
first, then the positional demotion of priority-shaped parts, then the
definition table. `firstPart` is `parts[0]`, `i` the part's index. -/
def scanPart (firstPart : Option String) (i : Nat) (part : String) : List Token :=
  match kvSplit part with
  | some (k, v) => [⟨.key, k ++ ":"⟩, classifyByDefs v]
  | none =>
    if prioShaped part && !(i = 0 || (i = 1 && firstPart = some "x")) then
      [⟨.word, part⟩]
    else
      [classifyByDefs part]

def scan (line : String) : List Token :=
  let parts := splitWs line
  (parts.enum.map fun p => scanPart parts.head? p.1 p.2).flatten

/-! ### Task record

The record built by `Parser.parseTask` and manipulated by the `Todo`
class.  The process-unique random `id` is not modelled (no claim
depends on identifier values).  Metadata values are either scalar
strings or, under the "merge" duplicate policy, arrays of strings;
`keyValues` is an insertion-ordered association list mirroring a
JavaScript object with string keys (assignment to an existing key keeps
its position, new keys append). -/

inductive MetaValue where
  | str (s : String)
  | arr (l : List String)
deriving DecidableEq, Repr

/-- `String(value)` as used when a metadata value is interpolated or
passed to `new Date`: arrays join with commas. -/
def MetaValue.render : MetaValue → String
  | .str s => s
  | .arr l => String.intercalate "," l

/-- JavaScript truthiness of a metadata value: the empty string is
falsy, every array (even empty) is truthy. -/
def MetaValue.truthy : MetaValue → Bool
  | .str s => s ≠ ""
  | .arr _ => true

abbrev KVs := List (String × MetaValue)

def kvLookup : KVs → String → Option MetaValue
  | [], _ => none
  | (k', v') :: rest, k => if k' = k then some v' else kvLookup rest k

/-- Object property assignment: replace in place if present, else append. -/
def kvSet : KVs → String → MetaValue → KVs
  | [], k, v => [(k, v)]
  | (k', v') :: rest, k, v =>
    if k' = k then (k', v) :: rest else (k', v') :: kvSet rest k v

/-- `delete obj[k]`. -/
def kvRemove : KVs → String → KVs
  | [], _ => []
  | (k', v') :: rest, k =>
    if k' = k then kvRemove rest k else (k', v') :: kvRemove rest k

structure Task where
  completed : Bool := false
  priority : Option String := none
  completionDate : Option String := none
  creationDate : Option String := none
  description : String := ""
  projects : List String := []
  contexts : List String := []
  keyValues : KVs := []
deriving DecidableEq, Repr

/-! ### Parser (`src/Parser.ts`)

Custom key handlers (per-key validators/transforms) are not modelled:
no claim involves them, and without them every metadata value is the
raw token text. -/

inductive DupBehavior where
  | error | overwrite | merge
deriving DecidableEq, Repr

inductive ParseErr where
  /-- `TaskParsingError` with message `Duplicate key '<k>' encountered.` -/
  | duplicateKey (k : String)
deriving DecidableEq, Repr

/-- Steps 3-4 of `parseTask`: the date token(s) after the header. -/
def parseHeaderDates (comp : Bool) (prio : Option String) :
    List Token → Task × List Token
  | ⟨.date, v⟩ :: rest =>
    if comp then
      match rest with
      | ⟨.date, v2⟩ :: rest2 =>
        ({ completed := comp, priority := prio, completionDate := some v,
           creationDate := some v2 }, rest2)
      | _ =>
        ({ completed := comp, priority := prio, completionDate := some v }, rest)
    else
      ({ completed := comp, priority := prio, creationDate := some v }, rest)
  | rest => ({ completed := comp, priority := prio }, rest)

/-- Step 2 of `parseTask`: the optional priority token. -/
def parseHeaderPrio (comp : Bool) : List Token → Task × List Token
  | ⟨.priority, v⟩ :: rest => parseHeaderDates comp (some v) rest
  | rest => parseHeaderDates comp none rest

/-- Steps 1-4 of `parseTask`: completion marker, priority, dates. -/
def parseHeader : List Token → Task × List Token
  | ⟨.completion, _⟩ :: rest => parseHeaderPrio true rest
  | rest => parseHeaderPrio false rest

/-- The duplicate-key switch in `parseTask`'s description loop. -/
def applyDupKey (b : DupBehavior) (t : Task) (k v : String) :
    Except ParseErr Task :=
  if (kvLookup t.keyValues k).isSome then
    match b with
    | .error => .error (.duplicateKey k)
    | .merge =>
      let newVal :=
        match kvLookup t.keyValues k with
        | some (.arr l) => MetaValue.arr (l ++ [v])
        | some (.str s) => MetaValue.arr ([s] ++ [v])
        | none => MetaValue.str v
      .ok { t with keyValues := kvSet t.keyValues k newVal }
    | .overwrite => .ok { t with keyValues := kvSet t.keyValues k (.str v) }
  else
    .ok { t with keyValues := kvSet t.keyValues k (.str v) }

/-- A non-key token (or a trailing key with nothing after it) joins the
description; `PROJECT`/`CONTEXT` tokens are additionally pushed onto
the tag lists. -/
def descUpdate (t : Task) (tok : Token) : Task :=
  if tok.type = .project then { t with projects := t.projects ++ [tok.value] }
  else if tok.type = .context then { t with contexts := t.contexts ++ [tok.value] }
  else t

/-- Step 5 of `parseTask`: the description loop.  A `KEY` token with a
following token (`match(KEY) && !isAtEnd(1)`) is a metadata assignment;
every other token joins the description via `descUpdate`.  Step 6 joins
and trims the description. -/
def parseBody (b : DupBehavior) :
    Task → List String → List Token → Except ParseErr Task
  | t, descParts, [] =>
    .ok { t with description := jsTrim (String.intercalate " " descParts) }
  | t, descParts, [tok] =>
    parseBody b (descUpdate t tok) (descParts ++ [tok.value]) []
  | t, descParts, tok :: next :: rest =>
    if tok.type = .key then
      match applyDupKey b t (dropLastChar tok.value) next.value with
      | .error e => .error e
      | .ok t' => parseBody b t' descParts rest
    else
      parseBody b (descUpdate t tok) (descParts ++ [tok.value]) (next :: rest)

def parseTask (b : DupBehavior) (ts : List Token) : Except ParseErr Task :=
  parseBody b (parseHeader ts).1 [] (parseHeader ts).2

/-! ### Todo class operations (`src/Todo.ts`)

The mutable class is embedded as pure functions `Task → ... → Task`.
Operations that default to "today" from the system clock take the
current date string as an explicit argument. -/

namespace Todo

/-- The `completed` setter: toggling off also clears the completion
date. -/
def setCompleted (t : Task) (v : Bool) : Task :=
  let t' := { t with completed := v }
  if v then t' else { t' with completionDate := none }

/-- The `completionDate` setter (no coupling with `completed`). -/
def setCompletionDate (t : Task) (v : Option String) : Task :=
  { t with completionDate := v }

def setCreationDate (t : Task) (v : Option String) : Task :=
  { t with creationDate := v }

def setDescription (t : Task) (d : String) : Task :=
  { t with description := d }

def setDueDate (t : Task) (d : String) : Task :=
  { t with keyValues := kvSet t.keyValues "due" (.str d) }

def setKeyValue (t : Task) (k : String) (v : MetaValue) : Task :=
  { t with keyValues := kvSet t.keyValues k v }

def removeKeyValue (t : Task) (k : String) : Task :=
  { t with keyValues := kvRemove t.keyValues k }

/-- `priority.replace(/[^A-Za-z]/, "")`: the regex has no global flag,
so only the first non-letter character is removed. -/
def removeFirstNonLetter : List Char → List Char
  | [] => []
  | c :: rest =>
    if isAsciiLetter c then c :: removeFirstNonLetter rest else rest

/-- `Todo.setPriority`.  A parenthesis-wrapped argument (any length)
stores the uppercased character at index 1 when it is a letter;
otherwise the first non-letter is removed, the rest uppercased, and the
whole result stored wrapped in parentheses when non-empty. -/
def setPriority (t : Task) (p : Option String) : Task :=
  match p with
  | none => { t with priority := none }
  | some s =>
    if headIs '(' s && lastIs ')' s then
      match jsCharAt s 1 with
      | some c =>
        if isUpperAlpha (jsToUpper c) then
          { t with priority := some ⟨['(', jsToUpper c, ')']⟩ }
        else t
      | none => t
    else
      match (removeFirstNonLetter s.data).map jsToUpper with
      | [] => t
      | r => { t with priority := some ⟨'(' :: r ++ [')']⟩ }

def markCompleted (t : Task) (completionDate : String) : Task :=
  { t with completed := true, completionDate := some completionDate }

def markIncomplete (t : Task) : Task :=
  { t with completed := false, completionDate := none }

def toggleCompletion (t : Task) (today : String) : Task :=
  if t.completed then markIncomplete t else markCompleted t today

def addContext (t : Task) (context : String) : Task :=
  let f := if headIs '@' context then context else "@" ++ context
  if f ∈ t.contexts then t else { t with contexts := t.contexts ++ [f] }

def removeContext (t : Task) (context : String) : Task :=
  let f := if headIs '@' context then context else "@" ++ context
  { t with contexts := t.contexts.filter (· ≠ f) }

def addProject (t : Task) (project : String) : Task :=
  let f := if headIs '+' project then project else "+" ++ project
  if f ∈ t.projects then t else { t with projects := t.projects ++ [f] }

def removeProject (t : Task) (project : String) : Task :=
  let f := if headIs '+' project then project else "+" ++ project
  { t with projects := t.projects.filter (· ≠ f) }

/-- The constructor's `options` object.  The typed fields correspond to
the declared option names; `extras` holds the object's remaining own
properties (in JavaScript, property names are unique). -/
structure TodoOptions where
  completed : Option Bool := none
  priority : Option String := none
  completionDate : Option String := none
  creationDate : Option String := none
  description : Option String := none
  projects : Option (List String) := none
  contexts : Option (List String) := none
  keyValues : Option KVs := none
  due : Option String := none
  extras : List (String × MetaValue) := []

/-- The option names skipped by the constructor's extra-key loop. -/
def reservedKeys : List String :=
  ["completed", "priority", "completionDate", "creationDate", "description",
   "projects", "contexts", "keyValues", "due", "id"]

/-- One step of the constructor's extra-property loop: skip reserved
names, store everything else with `setKeyValue`. -/
def extraStep (t : Task) (kv : String × MetaValue) : Task :=
  if kv.1 ∈ reservedKeys then t else setKeyValue t kv.1 kv.2

/-- The `Todo` constructor: direct field initialisation, then
`addProject`/`addContext` over the tag options, `setPriority` and
`setDueDate` when truthy, then `setKeyValue` for every non-reserved own
property. -/
def ofOptions (o : TodoOptions) : Task :=
  let t : Task :=
    { completed := o.completed.getD false,
      description := o.description.getD "",
      completionDate := o.completionDate,
      creationDate := o.creationDate,
      projects := [], contexts := [],
      keyValues := o.keyValues.getD [] }
  let t := (o.projects.getD []).foldl addProject t
  let t := (o.contexts.getD []).foldl addContext t
  let t :=
    match o.priority with
    | some p => if p ≠ "" then setPriority t (some p) else t
    | none => t
  let t :=
    match o.due with
    | some d => if d ≠ "" then setDueDate t d else t
    | none => t
  o.extras.foldl extraStep t

/-- `clone()` (the fresh `id` is outside the model). -/
def clone (t : Task) : Task :=
  ofOptions
    { completed := some t.completed, priority := t.priority,
      completionDate := t.completionDate, creationDate := t.creationDate,
      description := some t.description, projects := some t.projects,
      contexts := some t.contexts, keyValues := some t.keyValues }

def getDueDate (t : Task) : Option MetaValue := kvLookup t.keyValues "due"

inductive RecType where
  | daily | weekly | monthly | yearly
deriving DecidableEq, Repr

/-- `/^(\d+)([dwmy])$/i` with `parseInt` on the digits. -/
def parseRec (s : String) : Option (Nat × RecType) :=
  let cs := s.data
  let digits := cs.dropLast
  if digits.isEmpty || !digits.all isAsciiDigit then none
  else
    let interval := digits.foldl (fun n c => n * 10 + (c.toNat - 48)) 0
    match cs.getLast? with
    | some c =>
      match jsToUpper c with
      | 'D' => some (interval, .daily)
      | 'W' => some (interval, .weekly)
      | 'M' => some (interval, .monthly)
      | 'Y' => some (interval, .yearly)
      | _ => none
    | none => none

def setRecurrence (t : Task) (interval : Nat) (ty : RecType) : Task :=
  let letter : Char :=
    match ty with
    | .daily => 'd' | .weekly => 'w' | .monthly => 'm' | .yearly => 'y'
  setKeyValue t "rec" (.str (toString interval ++ ⟨[letter]⟩))

/-- `getRecurrence`: falsy or non-string stored values yield nothing. -/
def getRecurrence (t : Task) : Option (Nat × RecType) :=
  match kvLookup t.keyValues "rec" with
  | some (.str s) => if s = "" then none else parseRec s
  | _ => none

end Todo

/-! ### Calendar arithmetic

`generateRecurringTodo` manipulates its due date through the JavaScript
`Date` object: parse the ISO string (UTC midnight), shift via
`setDate`/`setMonth`/`setFullYear` (which normalise overflowing
components), and reformat with `toISOString`.  This is embedded with a
proleptic-Gregorian day count (civil date ↔ days since 1970-01-01). -/

structure CivDate where
  y : Int
  m : Int
  d : Int
deriving DecidableEq, Repr

def isLeap (y : Int) : Bool := (y % 4 = 0 && y % 100 ≠ 0) || y % 400 = 0

def daysInMonth (y m : Int) : Int :=
  if m = 2 then (if isLeap y then 29 else 28)
  else if m = 4 || m = 6 || m = 9 || m = 11 then 30
  else 31

/-- Days since 1970-01-01 of a civil date (months 1-12). -/
def toEpochDays (dt : CivDate) : Int :=
  let y := if dt.m ≤ 2 then dt.y - 1 else dt.y
  let era := Int.fdiv y 400
  let yoe := y - era * 400
  let mp := (dt.m + 9) % 12
  let doy := (153 * mp + 2) / 5 + dt.d - 1
  let doe := yoe * 365 + yoe / 4 - yoe / 100 + doy
  era * 146097 + doe - 719468

/-- Civil date of a day count since 1970-01-01. -/
def fromEpochDays (z0 : Int) : CivDate :=
  let z := z0 + 719468
  let era := Int.fdiv z 146097
  let doe := z - era * 146097
  let yoe := (doe - doe / 1460 + doe / 36524 - doe / 146096) / 365
  let y := yoe + era * 400
  let doy := doe - (365 * yoe + yoe / 4 - yoe / 100)
  let mp := (5 * doy + 2) / 153
  let d := doy - (153 * mp + 2) / 5 + 1
  let m := mp + (if mp < 10 then 3 else -9)
  ⟨y + (if m ≤ 2 then 1 else 0), m, d⟩

/-- `new Date(s)` on a date-only ISO string: lexical `YYYY-MM-DD` shape
with in-range month and day, otherwise an Invalid Date (`none`). -/
def parseJsDate (s : String) : Option CivDate :=
  match s.data with
  | [y1, y2, y3, y4, h1, m1, m2, h2, d1, d2] =>
    if h1 = '-' && h2 = '-' &&
       [y1, y2, y3, y4, m1, m2, d1, d2].all isAsciiDigit then
      let num (l : List Char) : Int :=
        l.foldl (fun n c => n * 10 + (Int.ofNat c.toNat - 48)) 0
      let y := num [y1, y2, y3, y4]
      let m := num [m1, m2]
      let d := num [d1, d2]
      if 1 ≤ m && m ≤ 12 && 1 ≤ d && d ≤ daysInMonth y m then
        some ⟨y, m, d⟩
      else none
    else none
  | _ => none

def natPad (width : Nat) (n : Nat) : String :=
  let s := toString n
  ⟨List.replicate (width - s.length) '0' ++ s.data⟩

/-- The date part of `Date.prototype.toISOString` (expanded-year form
outside 0000-9999). -/
def formatJsDate (dt : CivDate) : String :=
  let yStr :=
    if 0 ≤ dt.y && dt.y ≤ 9999 then natPad 4 dt.y.toNat
    else if dt.y < 0 then "-" ++ natPad 6 (-dt.y).toNat
    else "+" ++ natPad 6 dt.y.toNat
  yStr ++ "-" ++ natPad 2 dt.m.toNat ++ "-" ++ natPad 2 dt.d.toNat

/-- The `switch (recurrence.type)` date shift: `setDate` adds days;
`setMonth`/`setFullYear` keep the day-of-month and let overflow spill
into the following month. -/
def advanceDate (dt : CivDate) (ty : Todo.RecType) (interval : Nat) : CivDate :=
  match ty with
  | .daily => fromEpochDays (toEpochDays dt + interval)
  | .weekly => fromEpochDays (toEpochDays dt + 7 * interval)
  | .monthly =>
    let months := dt.y * 12 + (dt.m - 1) + interval
    let y := Int.fdiv months 12
    let m := months - y * 12 + 1
    fromEpochDays (toEpochDays ⟨y, m, 1⟩ + (dt.d - 1))
  | .yearly => fromEpochDays (toEpochDays ⟨dt.y + interval, dt.m, 1⟩ + (dt.d - 1))

namespace Todo

/-- `generateRecurringTodo`: nothing without a (truthy) due date and a
valid recurrence; otherwise clone, clear completion state, shift the
due date.  An unparseable due date makes `toISOString` throw
(`.error`). -/
def generateRecurringTodo (t : Task) : Except String (Option Task) :=
  match getDueDate t, getRecurrence t with
  | some dv, some (interval, ty) =>
    if !dv.truthy then .ok none
    else
      let newTodo := setCompletionDate (setCompleted (clone t) false) none
      match parseJsDate dv.render with
      | none => .error "Invalid time value"
      | some d =>
        .ok (some (setDueDate newTodo (formatJsDate (advanceDate d ty interval))))
  | _, _ => .ok none

end Todo

/-! ### TodoList (`src/TodoList.ts`) -/

structure TodoList where
  tasks : List Task
deriving DecidableEq, Repr

/-- `text.split(/\r?\n/)`: a lone carriage return is not a separator. -/
def splitLinesAux : List Char → List Char → List (List Char)
  | acc, [] => [acc.reverse]
  | acc, '\r' :: '\n' :: rest => acc.reverse :: splitLinesAux [] rest
  | acc, '\n' :: rest => acc.reverse :: splitLinesAux [] rest
  | acc, c :: rest => splitLinesAux (c :: acc) rest

def splitLines (s : String) : List String :=
  (splitLinesAux [] s.data).map fun l => ⟨l⟩

/-- The lines `TodoList.parse` feeds to the scanner: split on line
endings, keep lines whose trim is non-empty. -/
def effLines (text : String) : List String :=
  (splitLines text).filter fun l => jsTrim l ≠ ""

/-- The per-line loop of `TodoList.parse`: tasks are pushed one by one,
and an exception propagates immediately, leaving the pushes already
made in place. -/
def parseRun (b : DupBehavior) : List Task → List String → List Task × Option ParseErr
  | acc, [] => (acc, none)
  | acc, l :: rest =>
    match parseTask b (scan l) with
    | .ok t => parseRun b (acc ++ [t]) rest
    | .error e => (acc, some e)

/-- `TodoList.parse` on a string: `this.tasks = []` first, then the
loop; the second component is the propagated exception, if any.  The
pre-call state is discarded unconditionally. -/
def TodoList.parseText (_tl : TodoList) (text : String) (b : DupBehavior) :
    TodoList × Option ParseErr :=
  (⟨(parseRun b [] (effLines text)).1⟩, (parseRun b [] (effLines text)).2)

/-- `if (field) parts.push(field)`: an optional string is emitted when
truthy. -/
def optPart : Option String → List String
  | some s => if s ≠ "" then [s] else []
  | none => []

/-- The completion-marker/dates/priority prefix of one task's rendering
in `TodoList.toString`. -/
def renderHeaderParts (t : Task) : List String :=
  if t.completed then
    ["x"] ++ optPart t.completionDate ++ optPart t.creationDate
  else
    optPart t.priority ++ optPart t.creationDate

/-- One task's parts in `TodoList.toString` (note: no priority is
emitted for completed tasks). -/
def renderTaskParts (t : Task) : List String :=
  renderHeaderParts t
  ++ [t.description]
  ++ t.keyValues.map fun kv => kv.1 ++ ":" ++ kv.2.render

def TodoList.render (tl : TodoList) : String :=
  String.intercalate "\n"
    (tl.tasks.map fun t => String.intercalate " " (renderTaskParts t))

/-- `tasks.filter(t => t.contexts.includes(context))` — exact string
membership. -/
def TodoList.getTasksByContext (tl : TodoList) (context : String) : List Task :=
  tl.tasks.filter fun t => t.contexts.contains context

def TodoList.getTasksByProject (tl : TodoList) (project : String) : List Task :=
  tl.tasks.filter fun t => t.projects.contains project

/-- Parse a whole document on an empty list with the default duplicate
policy and render it back. -/
def roundTrip (text : String) : String :=
  ((TodoList.parseText ⟨[]⟩ text .overwrite).1).render

/-! ### Specification-side definitions

These restate, in structures independent of the implementation above,
what a line's rendered header should look like and what the (amended)
priority normalisation rule is; the theorems compare them with the
embedded code. -/

/-- At most one leading date token: the creation date slot of an
incomplete task. -/
def specDate1 : List Token → List String
  | ⟨.date, a⟩ :: _ => [a]
  | _ => []

/-- At most two leading date tokens: the completion/creation date slots
of a completed task. -/
def specDates2 : List Token → List String
  | ⟨.date, a⟩ :: rest => a :: specDate1 rest
  | _ => []

/-- The header field values of a scanned line as its rendering must
reproduce them: the completion marker and the date token values
verbatim, the priority token value verbatim for an incomplete task —
and, for a completed task, the priority token skipped entirely. -/
def specRenderedHeader : List Token → List String
  | ⟨.completion, v⟩ :: rest =>
    v :: specDates2 (match rest with
                     | ⟨.priority, _⟩ :: r => r
                     | r => r)
  | ⟨.priority, p⟩ :: rest => p :: specDate1 rest
  | rest => specDate1 rest

/-- The amended normalisation rule of `setPriority` for a string
argument: a parenthesis-wrapped string stores the uppercased character
at index 1 when it is a letter (and otherwise changes nothing); any
other string has only its FIRST non-letter removed (`List.eraseP`),
is uppercased, and the whole remainder — possibly several letters —
is stored wrapped in parentheses when non-empty (so the stored value
matches `([A-Z])` only when a single letter remains). -/
def specNormalizePriority (s : String) : Option String :=
  if headIs '(' s && lastIs ')' s then
    match jsCharAt s 1 with
    | some c =>
      if isUpperAlpha (jsToUpper c) then some ⟨['(', jsToUpper c, ')']⟩ else none
    | none => none
  else
    match (s.data.eraseP fun c => !isAsciiLetter c).map jsToUpper with
    | [] => none
    | r => some ⟨'(' :: r ++ [')']⟩

/-- The amended `setPriority`: `null` clears, a string argument stores
its normalisation when one exists and otherwise leaves the priority
unchanged. -/
def specSetPriority (t : Task) (p : Option String) : Task :=
  match p with
  | none => { t with priority := none }
  | some s =>
    match specNormalizePriority s with
    | some q => { t with priority := some q }
    | none => t

/-- Well-formedness of scanner output: token values are non-empty,
completion tokens are literally `"x"`, and context/project tokens keep
their sigil. -/
def GoodTok (tok : Token) : Prop :=
  tok.value ≠ "" ∧
  (tok.type = .completion → tok.value = "x") ∧
  (tok.type = .context → headIs '@' tok.value = true) ∧
  (tok.type = .project → headIs '+' tok.value = true)

/-! ### Concrete instances used by the claim theorems and witnesses -/

def c1Line : String := "x (A) 2023-04-01 2023-03-15 Task"

def c1Task : Task :=
  { completed := true, priority := some "(A)", completionDate := some "2023-04-01",
    creationDate := some "2023-03-15", description := "Task" }

def c7Task : Task := { keyValues := [("due", MetaValue.arr ["2023-04-01"])] }

def c8Task : Task :=
  Todo.setRecurrence
    (Todo.setDueDate (Todo.ofOptions { description := some "Task" }) "2023-04-10")
    2 .weekly

def c10Task : Task :=
  { description := "Call +Family @phone", projects := ["+Family"],
    contexts := ["@phone"] }

/-! ## Association-list lemmas -/

theorem kvLookup_kvSet_self (kvs : KVs) (k : String) (v : MetaValue) :
    kvLookup (kvSet kvs k v) k = some v := by
  induction kvs with
  | nil => simp [kvSet, kvLookup]
  | cons hd tl ih =>
    obtain ⟨k', v'⟩ := hd
    by_cases h : k' = k <;> simp [kvSet, kvLookup, h, ih]

theorem kvLookup_kvSet_ne (kvs : KVs) (k' k : String) (v : MetaValue)
    (h : k' ≠ k) : kvLookup (kvSet kvs k' v) k = kvLookup kvs k := by
  induction kvs with
  | nil => simp [kvSet, kvLookup, h]
  | cons hd tl ih =>
    obtain ⟨k₀, v₀⟩ := hd
    by_cases h0 : k₀ = k' <;> by_cases h1 : k₀ = k <;>
      simp_all [kvSet, kvLookup]

/-! ## Scanner well-formedness -/

theorem splitWsAux_ne (cs : List Char) :
    ∀ acc l, l ∈ splitWsAux acc cs → l ≠ [] := by
  induction cs with
  | nil =>
    intro acc l hl
    by_cases h : acc = [] <;> simp [splitWsAux, h] at hl
    subst hl
    simpa using h
  | cons c rest ih =>
    intro acc l hl
    by_cases hws : isJsWs c
    · by_cases h : acc = []
      · simp [splitWsAux, hws, h] at hl
        exact ih [] l hl
      · simp [splitWsAux, hws, h] at hl
        rcases hl with hl | hl
        · subst hl; simpa using h
        · exact ih [] l hl
    · simp [splitWsAux, hws] at hl
      exact ih (c :: acc) l hl

theorem splitWs_ne (s : String) : ∀ p ∈ splitWs s, p ≠ "" := by
  intro p hp
  simp [splitWs] at hp
  obtain ⟨l, hl, rfl⟩ := hp
  have := splitWsAux_ne s.data [] l hl
  intro hcontra
  apply this
  simpa [String.ext_iff] using hcontra

theorem kvSplitAux_ne (cs : List Char) :
    ∀ acc k v, kvSplitAux acc cs = some (k, v) → k ≠ [] ∧ v ≠ [] := by
  induction cs with
  | nil => intro acc k v h; simp [kvSplitAux] at h
  | cons c rest ih =>
    intro acc k v h
    simp only [kvSplitAux] at h
    by_cases hc : c = ':'
    · rw [if_pos hc] at h
      split at h
      · exact absurd h (by simp)
      · rename_i hcond
        simp only [Bool.or_eq_true, List.isEmpty_iff, not_or] at hcond
        rw [Option.some_inj, Prod.mk.injEq] at h
        obtain ⟨h1, h2⟩ := h
        subst h1; subst h2
        exact ⟨by simpa using hcond.1, hcond.2⟩
    · rw [if_neg hc] at h
      split at h
      · exact ih (c :: acc) k v h
      · exact absurd h (by simp)

theorem kvSplit_ne (s : String) (k v : String) (h : kvSplit s = some (k, v)) :
    v ≠ "" := by
  simp only [kvSplit, Option.map_eq_some'] at h
  obtain ⟨⟨kl, vl⟩, heq, h2⟩ := h
  have hne := (kvSplitAux_ne s.data [] kl vl heq).2
  rw [Prod.mk.injEq] at h2
  obtain ⟨-, h2v⟩ := h2
  intro hcontra
  rw [← h2v] at hcontra
  exact hne (by simpa [String.ext_iff] using hcontra)

theorem classifyByDefs_value (s : String) : (classifyByDefs s).value = s := by
  unfold classifyByDefs
  split_ifs <;> rfl

theorem classifyByDefs_completion (s : String)
    (h : (classifyByDefs s).type = .completion) : s = "x" := by
  unfold classifyByDefs at h
  split_ifs at h with h1 <;> first | exact h1 | exact absurd h (by simp)

theorem classifyByDefs_context (s : String)
    (h : (classifyByDefs s).type = .context) : ctxShaped s = true := by
  unfold classifyByDefs at h
  split_ifs at h with h1 h2 h3 h4 h5 <;> first | exact h5 | exact absurd h (by simp)

theorem classifyByDefs_project (s : String)
    (h : (classifyByDefs s).type = .project) : projShaped s = true := by
  unfold classifyByDefs at h
  split_ifs at h with h1 h2 h3 h4 <;> first | exact h4 | exact absurd h (by simp)

theorem ctxShaped_head (s : String) (h : ctxShaped s = true) :
    headIs '@' s = true := by
  unfold ctxShaped at h
  unfold headIs
  split at h
  · rename_i heq
    rw [heq]
    simp
  · exact absurd h (by simp)

theorem projShaped_head (s : String) (h : projShaped s = true) :
    headIs '+' s = true := by
  unfold projShaped at h
  unfold headIs
  split at h
  · rename_i heq
    rw [heq]
    simp
  · exact absurd h (by simp)

theorem goodTok_classify (s : String) (h : s ≠ "") : GoodTok (classifyByDefs s) := by
  refine ⟨by rw [classifyByDefs_value]; exact h, ?_, ?_, ?_⟩
  · intro hc
    rw [classifyByDefs_value]
    exact classifyByDefs_completion s hc
  · intro hc
    rw [classifyByDefs_value]
    exact ctxShaped_head s (classifyByDefs_context s hc)
  · intro hc
    rw [classifyByDefs_value]
    exact projShaped_head s (classifyByDefs_project s hc)

theorem scanPart_good (fp : Option String) (i : Nat) (part : String)
    (hne : part ≠ "") : ∀ tok ∈ scanPart fp i part, GoodTok tok := by
  intro tok htok
  unfold scanPart at htok
  split at htok
  · rename_i k v heq
    simp only [List.mem_cons, List.mem_singleton, List.not_mem_nil, or_false] at htok
    rcases htok with rfl | rfl
    · refine ⟨?_, fun h => TokenType.noConfusion h, fun h => TokenType.noConfusion h,
        fun h => TokenType.noConfusion h⟩
      intro hcontra
      have hcontra' : k ++ ":" = "" := hcontra
      have hdata : (k ++ ":").data = ("" : String).data := by rw [hcontra']
      simp [String.data_append] at hdata
    · exact goodTok_classify v (kvSplit_ne part k v heq)
  · split at htok
    · simp only [List.mem_singleton] at htok
      subst htok
      exact ⟨hne, fun h => TokenType.noConfusion h, fun h => TokenType.noConfusion h,
        fun h => TokenType.noConfusion h⟩
    · simp only [List.mem_singleton] at htok
      subst htok
      exact goodTok_classify part hne

theorem scan_good (line : String) : ∀ tok ∈ scan line, GoodTok tok := by
  intro tok htok
  unfold scan at htok
  simp only [List.mem_flatten, List.mem_map] at htok
  obtain ⟨chunk, ⟨⟨i, p⟩, hip, rfl⟩, htok⟩ := htok
  obtain ⟨hlt, hx⟩ := List.mem_enum hip
  have hp : p ∈ splitWs line := by
    rw [hx]
    exact List.getElem_mem hlt
  exact scanPart_good _ i p (splitWs_ne line p hp) tok htok

/-! ## Parser structure lemmas -/

theorem applyDupKey_fields (b : DupBehavior) (t : Task) (k v : String)
    (t' : Task) (h : applyDupKey b t k v = .ok t') :
    t'.completed = t.completed ∧ t'.priority = t.priority ∧
    t'.completionDate = t.completionDate ∧ t'.creationDate = t.creationDate ∧
    t'.contexts = t.contexts ∧ t'.projects = t.projects := by
  unfold applyDupKey at h
  split at h
  · split at h
    · exact absurd h (by simp)
    · simp only [Except.ok.injEq] at h
      subst h
      exact ⟨rfl, rfl, rfl, rfl, rfl, rfl⟩
    · simp only [Except.ok.injEq] at h
      subst h
      exact ⟨rfl, rfl, rfl, rfl, rfl, rfl⟩
  · simp only [Except.ok.injEq] at h
    subst h
    exact ⟨rfl, rfl, rfl, rfl, rfl, rfl⟩

theorem descUpdate_fields (t : Task) (tok : Token) :
    (descUpdate t tok).completed = t.completed ∧
    (descUpdate t tok).priority = t.priority ∧
    (descUpdate t tok).completionDate = t.completionDate ∧
    (descUpdate t tok).creationDate = t.creationDate := by
  unfold descUpdate
  split_ifs <;> exact ⟨rfl, rfl, rfl, rfl⟩

theorem descUpdate_contexts (t : Task) (tok : Token) :
    ∀ c ∈ (descUpdate t tok).contexts,
      c ∈ t.contexts ∨ (tok.type = .context ∧ tok.value = c) := by
  unfold descUpdate
  split_ifs with h1 h2
  · exact fun c hc => Or.inl hc
  · intro c hc
    simp only [List.mem_append, List.mem_singleton] at hc
    rcases hc with hc | rfl
    · exact Or.inl hc
    · exact Or.inr ⟨h2, rfl⟩
  · exact fun c hc => Or.inl hc

theorem descUpdate_projects (t : Task) (tok : Token) :
    ∀ p ∈ (descUpdate t tok).projects,
      p ∈ t.projects ∨ (tok.type = .project ∧ tok.value = p) := by
  unfold descUpdate
  split_ifs with h1
  · intro p hp
    simp only [List.mem_append, List.mem_singleton] at hp
    rcases hp with hp | rfl
    · exact Or.inl hp
    · exact Or.inr ⟨h1, rfl⟩
  · exact fun p hp => Or.inl hp
  · exact fun p hp => Or.inl hp

/-- `parseBody` never touches the header fields, and every context or
project entry it adds is the value of a `CONTEXT`/`PROJECT` token of
its input. -/
theorem parseBody_fields (b : DupBehavior) :
    ∀ (ts : List Token) (t : Task) (acc : List String) (t' : Task),
      parseBody b t acc ts = .ok t' →
      t'.completed = t.completed ∧ t'.priority = t.priority ∧
      t'.completionDate = t.completionDate ∧ t'.creationDate = t.creationDate ∧
      (∀ c ∈ t'.contexts,
        c ∈ t.contexts ∨ ∃ tok ∈ ts, tok.type = .context ∧ tok.value = c) ∧
      (∀ p ∈ t'.projects,
        p ∈ t.projects ∨ ∃ tok ∈ ts, tok.type = .project ∧ tok.value = p)
  | [], t, acc, t', h => by
    simp only [parseBody, Except.ok.injEq] at h
    subst h
    exact ⟨rfl, rfl, rfl, rfl, fun c hc => Or.inl hc, fun p hp => Or.inl hp⟩
  | [tok], t, acc, t', h => by
    rw [parseBody] at h
    have ih := parseBody_fields b [] (descUpdate t tok) (acc ++ [tok.value]) t' h
    have hdf := descUpdate_fields t tok
    refine ⟨ih.1.trans hdf.1, ih.2.1.trans hdf.2.1, ih.2.2.1.trans hdf.2.2.1,
      ih.2.2.2.1.trans hdf.2.2.2, ?_, ?_⟩
    · intro c hc
      rcases ih.2.2.2.2.1 c hc with hc' | ⟨tok', htok', _⟩
      · rcases descUpdate_contexts t tok c hc' with hc'' | ⟨hty, hval⟩
        · exact Or.inl hc''
        · exact Or.inr ⟨tok, by simp, hty, hval⟩
      · exact absurd htok' (by simp)
    · intro p hp
      rcases ih.2.2.2.2.2 p hp with hp' | ⟨tok', htok', _⟩
      · rcases descUpdate_projects t tok p hp' with hp'' | ⟨hty, hval⟩
        · exact Or.inl hp''
        · exact Or.inr ⟨tok, by simp, hty, hval⟩
      · exact absurd htok' (by simp)
  | tok :: next :: rest, t, acc, t', h => by
    rw [parseBody] at h
    split at h
    · split at h
      · exact absurd h (by simp)
      · rename_i t2 hdk
        have ih := parseBody_fields b rest t2 acc t' h
        have hf := applyDupKey_fields b t (dropLastChar tok.value) next.value t2 hdk
        refine ⟨ih.1.trans hf.1, ih.2.1.trans hf.2.1, ih.2.2.1.trans hf.2.2.1,
          ih.2.2.2.1.trans hf.2.2.2.1, ?_, ?_⟩
        · intro c hc
          rcases ih.2.2.2.2.1 c hc with hc' | ⟨tok', htok', hrest⟩
          · exact Or.inl (hf.2.2.2.2.1 ▸ hc')
          · exact Or.inr ⟨tok', by simp [htok'], hrest⟩
        · intro p hp
          rcases ih.2.2.2.2.2 p hp with hp' | ⟨tok', htok', hrest⟩
          · exact Or.inl (hf.2.2.2.2.2 ▸ hp')
          · exact Or.inr ⟨tok', by simp [htok'], hrest⟩
    · have ih := parseBody_fields b (next :: rest) (descUpdate t tok)
        (acc ++ [tok.value]) t' h
      have hdf := descUpdate_fields t tok
      refine ⟨ih.1.trans hdf.1, ih.2.1.trans hdf.2.1, ih.2.2.1.trans hdf.2.2.1,
        ih.2.2.2.1.trans hdf.2.2.2, ?_, ?_⟩
      · intro c hc
        rcases ih.2.2.2.2.1 c hc with hc' | ⟨tok', htok', hrest⟩
        · rcases descUpdate_contexts t tok c hc' with hc'' | ⟨hty, hval⟩
          · exact Or.inl hc''
          · exact Or.inr ⟨tok, by simp, hty, hval⟩
        · exact Or.inr ⟨tok', by simp [htok'], hrest⟩
      · intro p hp
        rcases ih.2.2.2.2.2 p hp with hp' | ⟨tok', htok', hrest⟩
        · rcases descUpdate_projects t tok p hp' with hp'' | ⟨hty, hval⟩
          · exact Or.inl hp''
          · exact Or.inr ⟨tok, by simp, hty, hval⟩
        · exact Or.inr ⟨tok', by simp [htok'], hrest⟩

/-! ## Header rendering lemmas -/

theorem parseHeaderDates_spec (comp : Bool) (prio : Option String)
    (ts : List Token) (hw : ∀ tok ∈ ts, GoodTok tok) :
    (parseHeaderDates comp prio ts).1.completed = comp ∧
    (parseHeaderDates comp prio ts).1.priority = prio ∧
    (comp = true →
      optPart (parseHeaderDates comp prio ts).1.completionDate ++
        optPart (parseHeaderDates comp prio ts).1.creationDate = specDates2 ts) ∧
    (comp = false →
      (parseHeaderDates comp prio ts).1.completionDate = none ∧
      optPart (parseHeaderDates comp prio ts).1.creationDate = specDate1 ts) ∧
    (parseHeaderDates comp prio ts).1.projects = [] ∧
    (parseHeaderDates comp prio ts).1.contexts = [] := by
  cases ts with
  | nil => cases comp <;> simp [parseHeaderDates, optPart, specDates2, specDate1]
  | cons tok rest =>
    obtain ⟨ty, v⟩ := tok
    have hv := hw ⟨ty, v⟩ (by simp)
    cases ty
    case date =>
      cases comp
      case false =>
        simp [parseHeaderDates, optPart, specDate1, hv.1]
      case true =>
        cases rest with
        | nil => simp [parseHeaderDates, optPart, specDates2, specDate1, hv.1]
        | cons tok2 rest2 =>
          obtain ⟨ty2, v2⟩ := tok2
          have hv2 := hw ⟨ty2, v2⟩ (by simp)
          cases ty2 <;>
            simp [parseHeaderDates, optPart, specDates2, specDate1, hv.1, hv2.1]
    all_goals
      cases comp <;> simp [parseHeaderDates, optPart, specDates2, specDate1]

theorem parseHeader_not_completion (tok : Token) (rest : List Token)
    (h : tok.type ≠ .completion) :
    parseHeader (tok :: rest) = parseHeaderPrio false (tok :: rest) := by
  obtain ⟨ty, v⟩ := tok
  cases ty <;> first | rfl | exact absurd rfl h

theorem parseHeaderPrio_not_priority (comp : Bool) (tok : Token)
    (rest : List Token) (h : tok.type ≠ .priority) :
    parseHeaderPrio comp (tok :: rest) = parseHeaderDates comp none (tok :: rest) := by
  obtain ⟨ty, v⟩ := tok
  cases ty <;> first | rfl | exact absurd rfl h

theorem specRenderedHeader_other (tok : Token) (rest : List Token)
    (h1 : tok.type ≠ .completion) (h2 : tok.type ≠ .priority) :
    specRenderedHeader (tok :: rest) = specDate1 (tok :: rest) := by
  obtain ⟨ty, v⟩ := tok
  cases ty <;> first | rfl | exact absurd rfl h1 | exact absurd rfl h2

theorem specRenderedHeader_completion_other (v : String) (tok2 : Token)
    (rest2 : List Token) (h : tok2.type ≠ .priority) :
    specRenderedHeader (⟨.completion, v⟩ :: tok2 :: rest2) =
      v :: specDates2 (tok2 :: rest2) := by
  obtain ⟨ty2, v2⟩ := tok2
  cases ty2 <;> first | rfl | exact absurd rfl h

theorem parseHeader_spec (ts : List Token) (hw : ∀ tok ∈ ts, GoodTok tok) :
    renderHeaderParts (parseHeader ts).1 = specRenderedHeader ts ∧
    (parseHeader ts).1.projects = [] ∧ (parseHeader ts).1.contexts = [] := by
  have hpriorender :
      ∀ (comp : Bool) (prio : Option String) (l : List Token),
        (∀ tok ∈ l, GoodTok tok) →
        renderHeaderParts (parseHeaderDates comp prio l).1 =
          (if comp then ["x"] ++ specDates2 l else optPart prio ++ specDate1 l) := by
    intro comp prio l hl
    have hd := parseHeaderDates_spec comp prio l hl
    unfold renderHeaderParts
    rw [hd.1, hd.2.1]
    cases comp with
    | true =>
      have hds := hd.2.2.1 rfl
      simp only [if_pos, List.append_assoc] at hds ⊢
      rw [hds]
    | false =>
      obtain ⟨hcd, hcr⟩ := hd.2.2.2.1 rfl
      simp only [Bool.false_eq_true, if_false]
      rw [hcr]
  cases ts with
  | nil =>
    have hd := parseHeaderDates_spec false none [] (by simp)
    refine ⟨?_, hd.2.2.2.2.1, hd.2.2.2.2.2⟩
    rw [show parseHeader [] = parseHeaderDates false none [] from rfl]
    rw [hpriorender false none [] (by simp)]
    simp [specRenderedHeader, specDate1, optPart]
  | cons tok rest =>
    have hv := hw tok (by simp)
    have hwrest : ∀ tok ∈ rest, GoodTok tok := fun tok htok => hw tok (by simp [htok])
    by_cases hcmpl : tok.type = .completion
    · obtain ⟨ty, v⟩ := tok
      cases hcmpl
      have hx : v = "x" := hv.2.1 rfl
      subst hx
      cases rest with
      | nil =>
        have hd := parseHeaderDates_spec true none [] (by simp)
        refine ⟨?_, hd.2.2.2.2.1, hd.2.2.2.2.2⟩
        rw [show parseHeader [⟨.completion, "x"⟩] = parseHeaderDates true none []
          from rfl]
        rw [hpriorender true none [] (by simp)]
        simp [specRenderedHeader, specDates2, specDate1]
      | cons tok2 rest2 =>
        have hwrest2 : ∀ tok ∈ rest2, GoodTok tok :=
          fun tok htok => hwrest tok (by simp [htok])
        by_cases hp2 : tok2.type = .priority
        · obtain ⟨ty2, v2⟩ := tok2
          cases hp2
          have hd := parseHeaderDates_spec true (some v2) rest2 hwrest2
          refine ⟨?_, hd.2.2.2.2.1, hd.2.2.2.2.2⟩
          rw [show parseHeader (⟨.completion, "x"⟩ :: ⟨.priority, v2⟩ :: rest2) =
            parseHeaderDates true (some v2) rest2 from rfl]
          rw [hpriorender true (some v2) rest2 hwrest2]
          simp [specRenderedHeader]
        · have heq : parseHeader (⟨.completion, "x"⟩ :: tok2 :: rest2) =
              parseHeaderDates true none (tok2 :: rest2) := by
            rw [show parseHeader (⟨.completion, "x"⟩ :: tok2 :: rest2) =
              parseHeaderPrio true (tok2 :: rest2) from rfl]
            rw [parseHeaderPrio_not_priority true tok2 rest2 hp2]
          rw [heq]
          have hd := parseHeaderDates_spec true none (tok2 :: rest2) hwrest
          refine ⟨?_, hd.2.2.2.2.1, hd.2.2.2.2.2⟩
          rw [hpriorender true none (tok2 :: rest2) hwrest]
          rw [specRenderedHeader_completion_other "x" tok2 rest2 hp2]
          simp
    · by_cases hprio : tok.type = .priority
      · obtain ⟨ty, v⟩ := tok
        cases hprio
        have hd := parseHeaderDates_spec false (some v) rest hwrest
        refine ⟨?_, hd.2.2.2.2.1, hd.2.2.2.2.2⟩
        rw [show parseHeader (⟨.priority, v⟩ :: rest) =
          parseHeaderDates false (some v) rest from rfl]
        rw [hpriorender false (some v) rest hwrest]
        simp [specRenderedHeader, optPart, hv.1]
      · have heq : parseHeader (tok :: rest) =
            parseHeaderDates false none (tok :: rest) := by
          rw [parseHeader_not_completion tok rest hcmpl]
          rw [parseHeaderPrio_not_priority false tok rest hprio]
        rw [heq]
        have hd := parseHeaderDates_spec false none (tok :: rest) hw
        refine ⟨?_, hd.2.2.2.2.1, hd.2.2.2.2.2⟩
        rw [hpriorender false none (tok :: rest) hw]
        rw [specRenderedHeader_other tok rest hcmpl hprio]
        simp [optPart]

theorem parseHeaderDates_sub (comp : Bool) (prio : Option String)
    (l : List Token) : ∀ tok ∈ (parseHeaderDates comp prio l).2, tok ∈ l := by
  cases l with
  | nil => simp [parseHeaderDates]
  | cons t1 rest =>
    obtain ⟨ty, v⟩ := t1
    cases ty
    case date =>
      cases comp
      case false =>
        intro tok htok
        simp only [parseHeaderDates] at htok
        exact List.mem_cons_of_mem _ htok
      case true =>
        cases rest with
        | nil =>
          intro tok htok
          simp only [parseHeaderDates] at htok
          simp at htok
        | cons t2 rest2 =>
          obtain ⟨ty2, v2⟩ := t2
          cases ty2 <;> intro tok htok <;> simp only [parseHeaderDates] at htok <;>
            first
            | exact List.mem_cons_of_mem _ (List.mem_cons_of_mem _ htok)
            | exact List.mem_cons_of_mem _ htok
    all_goals (intro tok htok; exact htok)
    
theorem parseHeader_sub (ts : List Token) :
    ∀ tok ∈ (parseHeader ts).2, tok ∈ ts := by
  have hprio : ∀ (comp : Bool) (l : List Token) (tok : Token),
      tok ∈ (parseHeaderPrio comp l).2 → tok ∈ l := by
    intro comp l tok htok
    cases l with
    | nil => simpa [parseHeaderPrio] using parseHeaderDates_sub comp none [] tok htok
    | cons t1 rest =>
      obtain ⟨ty, v⟩ := t1
      cases ty
      case priority =>
        exact List.mem_cons_of_mem _ (parseHeaderDates_sub comp (some v) rest tok htok)
      all_goals exact parseHeaderDates_sub comp none _ tok htok
  intro tok htok
  cases ts with
  | nil => simpa [parseHeader] using hprio false [] tok htok
  | cons t1 rest =>
    obtain ⟨ty, v⟩ := t1
    cases ty
    case completion =>
      exact List.mem_cons_of_mem _ (hprio true rest tok htok)
    all_goals exact hprio false _ tok htok

/-- Rendering after a successful parse: the rendered parts are exactly
the specification-side header (priority dropped when completed), the
description, and the metadata entries. -/
theorem parseTask_render (b : DupBehavior) (line : String) (t : Task)
    (h : parseTask b (scan line) = .ok t) :
    renderTaskParts t = specRenderedHeader (scan line) ++ [t.description] ++
      t.keyValues.map (fun kv => kv.1 ++ ":" ++ kv.2.render) := by
  unfold parseTask at h
  have hw := scan_good line
  have hh := parseHeader_spec (scan line) hw
  have hb := parseBody_fields b (parseHeader (scan line)).2
    (parseHeader (scan line)).1 [] t h
  have hrend : renderHeaderParts t = renderHeaderParts (parseHeader (scan line)).1 := by
    unfold renderHeaderParts
    rw [hb.1, hb.2.1, hb.2.2.1, hb.2.2.2.1]
  unfold renderTaskParts
  rw [hrend, hh.1]

/-! ## TodoList.parse loop lemmas -/

theorem parseRun_acc (b : DupBehavior) :
    ∀ (lines : List String) (acc : List Task),
      parseRun b acc lines =
        (acc ++ (parseRun b [] lines).1, (parseRun b [] lines).2)
  | [], acc => by simp [parseRun]
  | l :: rest, acc => by
    simp only [parseRun]
    cases h : parseTask b (scan l) with
    | ok t =>
      show parseRun b (acc ++ [t]) rest =
        (acc ++ (parseRun b ([] ++ [t]) rest).1, (parseRun b ([] ++ [t]) rest).2)
      rw [parseRun_acc b rest (acc ++ [t]), parseRun_acc b rest ([] ++ [t])]
      simp
    | error e => simp

/-- A failing `TodoList.parse` loop stops at the first bad line: the
accumulated tasks are exactly the parses of the lines before it. -/
theorem parseRun_err (b : DupBehavior) (e : ParseErr) :
    ∀ lines : List String, (parseRun b [] lines).2 = some e →
      ∃ k l, lines[k]? = some l ∧ parseTask b (scan l) = .error e ∧
        (lines.take k).map (fun l => parseTask b (scan l)) =
          (parseRun b [] lines).1.map Except.ok
  | [], h => by simp [parseRun] at h
  | l :: rest, h => by
    rw [show parseRun b [] (l :: rest) =
      (match parseTask b (scan l) with
       | .ok t => parseRun b ([] ++ [t]) rest
       | .error e => ([], some e)) from rfl] at h ⊢
    cases hp : parseTask b (scan l) with
    | error e2 =>
      simp only [hp] at h ⊢
      obtain rfl : e2 = e := by simpa using h
      exact ⟨0, l, by simp, hp, by simp⟩
    | ok t =>
      simp only [hp] at h ⊢
      rw [parseRun_acc b rest ([] ++ [t])] at h ⊢
      simp only [List.nil_append] at h ⊢
      have h2 : (parseRun b [] rest).2 = some e := by simpa using h
      obtain ⟨k, l', hk, hl', hmm⟩ := parseRun_err b e rest h2
      refine ⟨k + 1, l', by simpa using hk, hl', ?_⟩
      simp only [List.take_succ_cons, List.map_cons, hp, hmm]
      simp [List.map_append]

/-! ## Constructor extra-key lemmas -/

theorem extrasFold_untouched (extras : List (String × MetaValue)) :
    ∀ (t : Task) (k : String), k ∉ extras.map Prod.fst →
      kvLookup (extras.foldl Todo.extraStep t).keyValues k = kvLookup t.keyValues k := by
  induction extras with
  | nil => intro t k _; rfl
  | cons kv rest ih =>
    intro t k hk
    simp only [List.map_cons, List.mem_cons, not_or] at hk
    rw [List.foldl_cons, ih (Todo.extraStep t kv) k hk.2]
    unfold Todo.extraStep
    split
    · rfl
    · exact kvLookup_kvSet_ne t.keyValues kv.1 k kv.2 (Ne.symm hk.1)

theorem extrasFold_mem (extras : List (String × MetaValue)) :
    ∀ (t : Task) (k : String) (v : MetaValue), (k, v) ∈ extras →
      (extras.map Prod.fst).Nodup → k ∉ Todo.reservedKeys →
      kvLookup (extras.foldl Todo.extraStep t).keyValues k = some v := by
  induction extras with
  | nil => intro t k v hmem; simp at hmem
  | cons kv rest ih =>
    intro t k v hmem hnodup hres
    simp only [List.map_cons, List.nodup_cons] at hnodup
    rw [List.foldl_cons]
    rcases List.mem_cons.mp hmem with rfl | hmem'
    · rw [extrasFold_untouched rest (Todo.extraStep t (k, v)) k hnodup.1]
      unfold Todo.extraStep
      rw [if_neg hres]
      exact kvLookup_kvSet_self t.keyValues k v
    · exact ih (Todo.extraStep t kv) k v hmem' hnodup.2 hres

/-! ## setPriority normalisation lemma -/

theorem removeFirstNonLetter_eraseP (l : List Char) :
    Todo.removeFirstNonLetter l = l.eraseP fun c => !isAsciiLetter c := by
  induction l with
  | nil => rfl
  | cons c rest ih =>
    unfold Todo.removeFirstNonLetter
    by_cases h : isAsciiLetter c = true
    · rw [if_pos h, ih, List.eraseP_cons_of_neg]
      simp [h]
    · rw [if_neg h, List.eraseP_cons_of_pos]
      simp [Bool.not_eq_true] at h
      simp [h]

/-! ## Claim C3 -/

/-- C3, counterexample: scanning `"a x"` classifies the second part
`"x"` as a Completion token, not as the Word token the claim
predicts. -/
theorem c3_counterexample :
    scan "a x" = [⟨.word, "a"⟩, ⟨.completion, "x"⟩] ∧
    (scan "a x")[1]? ≠ some ⟨TokenType.word, "x"⟩ := by
  exact ⟨rfl, by decide⟩

/-- C3, amended: the Scanner applies no positional check to `"x"` at
all — at every part index, with any first part, a part equal to `"x"`
is emitted as a Completion token (only priority-shaped parts are
position-checked; it is the Parser that later treats a non-initial
Completion token as description text). -/
theorem c3_completion_position_free (fp : Option String) (i : Nat) :
    scanPart fp i "x" = [⟨TokenType.completion, "x"⟩] := rfl

theorem c3_witness :
    scanPart (some "a") 1 "x" = [⟨TokenType.completion, "x"⟩] :=
  c3_completion_position_free (some "a") 1

/-! ## Claim C4 -/

/-- C4, counterexample: the `completionDate` setter stores a completion
date on a freshly constructed (incomplete) todo, so `completed = false`
no longer implies an unset completion date. -/
theorem c4_counterexample :
    (Todo.setCompletionDate (Todo.ofOptions {}) (some "2023-01-01")).completed
      = false ∧
    (Todo.setCompletionDate (Todo.ofOptions {}) (some "2023-01-01")).completionDate
      = some "2023-01-01" := by
  exact ⟨rfl, rfl⟩

/-- C4, amended: the `completed == false → completionDate` unset
coupling is enforced exactly where completion is toggled off — by the
`completed` setter given `false`, by `markIncomplete`, and by
`toggleCompletion` whenever it ends incomplete (`markCompleted` makes
the task completed) — but not by construction or by the
`completionDate` setter. -/
theorem c4_coupling_on_toggle_off (t : Task) (d today : String) :
    ((Todo.setCompleted t false).completed = false ∧
     (Todo.setCompleted t false).completionDate = none) ∧
    ((Todo.markIncomplete t).completed = false ∧
     (Todo.markIncomplete t).completionDate = none) ∧
    (Todo.markCompleted t d).completed = true ∧
    ((Todo.toggleCompletion t today).completed = false →
      (Todo.toggleCompletion t today).completionDate = none) := by
  refine ⟨⟨rfl, rfl⟩, ⟨rfl, rfl⟩, rfl, ?_⟩
  unfold Todo.toggleCompletion
  by_cases h : t.completed
  · rw [if_pos h]
    intro
    rfl
  · rw [if_neg h]
    intro hc
    exact absurd hc (by simp [Todo.markCompleted])

theorem c4_witness :
    (Todo.toggleCompletion (Todo.markCompleted (Todo.ofOptions {}) "2023-01-01")
      "2023-01-02").completionDate = none :=
  (c4_coupling_on_toggle_off (Todo.markCompleted (Todo.ofOptions {}) "2023-01-01")
    "2023-01-01" "2023-01-02").2.2.2 (by rfl)

/-! ## Claim C5 -/

/-- C5, counterexample: `setPriority("high")` stores `"(HIGH)"` — the
whole uppercased remainder, not its first letter — so the stored
priority neither equals `"(H)"` nor matches `([A-Z])`. -/
theorem c5_counterexample :
    (Todo.setPriority (Todo.ofOptions {}) (some "high")).priority = some "(HIGH)" ∧
    prioShaped "(HIGH)" = false ∧
    (Todo.setPriority (Todo.ofOptions {}) (some "high")).priority ≠ some "(H)" := by
  exact ⟨rfl, rfl, by decide⟩

/-- C5, amended: `setPriority` behaves as `specSetPriority`: `null`
clears the priority; a parenthesis-wrapped argument (any length) stores
the uppercased character at index 1 when that is a letter and otherwise
changes nothing; any other argument has only its first non-letter
removed, is uppercased, and the whole remainder is stored wrapped in
parentheses when non-empty — so a stored value matches `([A-Z])` only
when a single letter remains — and an empty remainder leaves the
priority unchanged. -/
theorem c5_setPriority_normalisation (t : Task) (p : Option String) :
    Todo.setPriority t p = specSetPriority t p := by
  cases p with
  | none => rfl
  | some s =>
    unfold Todo.setPriority specSetPriority specNormalizePriority
    dsimp only
    rw [← removeFirstNonLetter_eraseP]
    by_cases h1 : (headIs '(' s && lastIs ')' s) = true
    · rw [if_pos h1, if_pos h1]
      cases hc : jsCharAt s 1 with
      | none => rfl
      | some c =>
        by_cases h2 : isUpperAlpha (jsToUpper c) = true <;> simp [h2]
    · rw [if_neg h1, if_neg h1]
      cases hr : (Todo.removeFirstNonLetter s.data).map jsToUpper with
      | nil => rfl
      | cons c rest => rfl

theorem c5_witness :
    Todo.setPriority (Todo.ofOptions {}) (some "(b)") =
      specSetPriority (Todo.ofOptions {}) (some "(b)") :=
  c5_setPriority_normalisation (Todo.ofOptions {}) (some "(b)")

/-! ## Claim C6 -/

/-- C6, counterexample: the Parser records repeated `+project` tokens
without deduplication — parsing the line `"+p +p"` yields the project
list `["+p", "+p"]`, which contains the same entry twice. -/
theorem c6_counterexample :
    parseTask .overwrite (scan "+p +p") =
      .ok { description := "+p +p", projects := ["+p", "+p"] } ∧
    ¬ (["+p", "+p"] : List String).Nodup := by
  exact ⟨rfl, by decide⟩

/-- C6, amended: `addProject` and `addContext` do keep the tag lists
duplicate-free (a membership check precedes every push), but the
Parser's description loop appends tag tokens unconditionally, so lists
built by parsing may contain duplicates. -/
theorem c6_add_nodup (t : Task) (c p : String)
    (hc : t.contexts.Nodup) (hp : t.projects.Nodup) :
    (Todo.addContext t c).contexts.Nodup ∧
    (Todo.addProject t p).projects.Nodup := by
  constructor
  · simp only [Todo.addContext]
    split <;> split <;>
      first
      | assumption
      | (rename_i hnotmem; simp [List.nodup_append, hc, hnotmem])
  · simp only [Todo.addProject]
    split <;> split <;>
      first
      | assumption
      | (rename_i hnotmem; simp [List.nodup_append, hp, hnotmem])

theorem c6_witness :
    (Todo.addContext (Todo.ofOptions {}) "phone").contexts.Nodup ∧
    (Todo.addProject (Todo.ofOptions {}) "Family").projects.Nodup :=
  c6_add_nodup (Todo.ofOptions {}) "phone" "Family" (by decide) (by decide)

/-! ## Claim C7 -/

/-- C7: parsing `"due:2023-04-01 due:2023-05-01"` raises a parse
failure naming the key under the `error` policy, stores
`"2023-05-01"` under `overwrite`, and stores the list
`["2023-04-01", "2023-05-01"]` in encounter order under `merge`; a
third occurrence appends to the same list, and in general a further
occurrence of a key already holding a merged list appends its value to
that list. -/
theorem c7_duplicate_key_modes (t : Task) (k v : String) (vs : List String)
    (h : kvLookup t.keyValues k = some (.arr vs)) :
    parseTask .error (scan "due:2023-04-01 due:2023-05-01") =
      .error (.duplicateKey "due") ∧
    Except.map (fun t0 => kvLookup t0.keyValues "due")
        (parseTask .overwrite (scan "due:2023-04-01 due:2023-05-01")) =
      .ok (some (.str "2023-05-01")) ∧
    Except.map (fun t0 => kvLookup t0.keyValues "due")
        (parseTask .merge (scan "due:2023-04-01 due:2023-05-01")) =
      .ok (some (.arr ["2023-04-01", "2023-05-01"])) ∧
    Except.map (fun t0 => kvLookup t0.keyValues "due")
        (parseTask .merge (scan "due:2023-04-01 due:2023-05-01 due:2023-06-01")) =
      .ok (some (.arr ["2023-04-01", "2023-05-01", "2023-06-01"])) ∧
    applyDupKey .merge t k v =
      .ok { t with keyValues := kvSet t.keyValues k (.arr (vs ++ [v])) } := by
  refine ⟨rfl, rfl, rfl, rfl, ?_⟩
  unfold applyDupKey
  rw [h]
  rfl

theorem c7_witness :
    applyDupKey .merge c7Task "due" "2023-07-01" =
      .ok { c7Task with
            keyValues := kvSet c7Task.keyValues "due"
              (.arr (["2023-04-01"] ++ ["2023-07-01"])) } :=
  (c7_duplicate_key_modes c7Task "due" "2023-07-01" ["2023-04-01"] (by rfl)).2.2.2.2

/-! ## Claim C1 -/

/-- C1, counterexample: the line `"x (A) 2023-04-01 2023-03-15 Task"`
parses to a completed task carrying priority `"(A)"`, but the rendered
round trip is `"x 2023-04-01 2023-03-15 Task"` — the priority of a
completed task is not reproduced. -/
theorem c1_counterexample :
    roundTrip "x (A) 2023-04-01 2023-03-15 Task" =
      "x 2023-04-01 2023-03-15 Task" ∧
    Except.map Task.priority
        (parseTask .overwrite (scan "x (A) 2023-04-01 2023-03-15 Task")) =
      .ok (some "(A)") ∧
    roundTrip "x (A) 2023-04-01 2023-03-15 Task" ≠
      "x (A) 2023-04-01 2023-03-15 Task" := by
  exact ⟨rfl, rfl, by decide⟩

/-- C1, amended: for every line that parses, the rendered task consists
of the line's header token values reproduced verbatim — completion
marker and completion/creation dates always, the priority only for an
incomplete task (a completed task's priority token is dropped) —
followed by the description and the metadata entries. -/
theorem c1_roundtrip_header (b : DupBehavior) (line : String) (t : Task)
    (h : parseTask b (scan line) = .ok t) :
    renderTaskParts t = specRenderedHeader (scan line) ++ [t.description] ++
      t.keyValues.map (fun kv => kv.1 ++ ":" ++ kv.2.render) :=
  parseTask_render b line t h

theorem c1_witness :
    renderTaskParts c1Task = specRenderedHeader (scan c1Line) ++
      [c1Task.description] ++
      c1Task.keyValues.map (fun kv => kv.1 ++ ":" ++ kv.2.render) :=
  c1_roundtrip_header .overwrite c1Line c1Task (by rfl)

/-! ## Claim C2 -/

/-- C2, counterexample: parsing a two-line text whose second line fails
under the `error` policy, on a list holding one task, leaves the list
holding exactly the task of the first input line: the previous content
is discarded and a strict prefix of the new document is retained. -/
theorem c2_counterexample :
    (TodoList.parseText ⟨[Todo.ofOptions { description := some "old" }]⟩
        "first line\nbad due:2023-04-01 due:2023-05-01" .error).2 =
      some (.duplicateKey "due") ∧
    ((TodoList.parseText ⟨[Todo.ofOptions { description := some "old" }]⟩
        "first line\nbad due:2023-04-01 due:2023-05-01" .error).1).tasks.map
      Task.description = ["first line"] := by
  exact ⟨rfl, rfl⟩

/-- C2, amended: `TodoList.parse` is not atomic.  It clears the
pre-call tasks unconditionally, and when some line fails it raises the
error but retains exactly the parsed tasks of the lines preceding the
first failing line. -/
theorem c2_nonatomic_retention (tl : TodoList) (text : String) (b : DupBehavior)
    (e : ParseErr) (h : (TodoList.parseText tl text b).2 = some e) :
    ∃ k l, (effLines text)[k]? = some l ∧ parseTask b (scan l) = .error e ∧
      ((effLines text).take k).map (fun l => parseTask b (scan l)) =
        ((TodoList.parseText tl text b).1.tasks).map Except.ok :=
  parseRun_err b e (effLines text) h

theorem c2_witness :
    ∃ k l,
      (effLines "first\nbad due:2023-04-01 due:2023-05-01")[k]? = some l ∧
      parseTask .error (scan l) = .error (.duplicateKey "due") ∧
      ((effLines "first\nbad due:2023-04-01 due:2023-05-01").take k).map
          (fun l => parseTask .error (scan l)) =
        ((TodoList.parseText ⟨[]⟩ "first\nbad due:2023-04-01 due:2023-05-01"
            .error).1.tasks).map Except.ok :=
  c2_nonatomic_retention ⟨[]⟩ "first\nbad due:2023-04-01 due:2023-05-01" .error
    (.duplicateKey "due") (by rfl)

/-! ## Claim C8 -/

/-- C8: `generateRecurringTodo` yields nothing when the task lacks a
due date or a valid recurrence; whenever it yields a task, that task is
incomplete with no completion date; on a task whose due date parses as
a calendar date and whose recurrence is valid, it yields the clone with
completion cleared and the due date advanced by the recurrence amount;
in particular, with due date `"2023-04-10"` and weekly recurrence of
interval `2` the new due date is `"2023-04-24"` (14 days later). -/
theorem c8_generate_recurring (t : Task) (i : Nat) (ty : Todo.RecType)
    (d : CivDate) (s : String) :
    (Todo.getDueDate t = none → Todo.generateRecurringTodo t = .ok none) ∧
    (Todo.getRecurrence t = none → Todo.generateRecurringTodo t = .ok none) ∧
    (∀ t', Todo.generateRecurringTodo t = .ok (some t') →
      t'.completed = false ∧ t'.completionDate = none) ∧
    (Todo.getDueDate t = some (.str s) → parseJsDate s = some d →
      Todo.getRecurrence t = some (i, ty) →
      Todo.generateRecurringTodo t = .ok (some (Todo.setDueDate
        (Todo.setCompletionDate (Todo.setCompleted (Todo.clone t) false) none)
        (formatJsDate (advanceDate d ty i))))) ∧
    (advanceDate d .weekly i = fromEpochDays (toEpochDays d + 7 * i)) ∧
    (Except.map
        (Option.map fun t0 => (t0.completed, t0.completionDate,
          kvLookup t0.keyValues "due"))
        (Todo.generateRecurringTodo c8Task) =
      .ok (some (false, none, some (.str "2023-04-24")))) := by
  refine ⟨?_, ?_, ?_, ?_, rfl, rfl⟩
  · intro h
    cases hr : Todo.getRecurrence t <;>
      simp [Todo.generateRecurringTodo, h, hr]
  · intro h
    cases hd : Todo.getDueDate t <;>
      simp [Todo.generateRecurringTodo, h, hd]
  · intro t' h
    cases hd : Todo.getDueDate t with
    | none => simp [Todo.generateRecurringTodo, hd] at h
    | some dv =>
      cases hr : Todo.getRecurrence t with
      | none => simp [Todo.generateRecurringTodo, hd, hr] at h
      | some p =>
        obtain ⟨iv, tyv⟩ := p
        simp only [Todo.generateRecurringTodo, hd, hr] at h
        split at h
        · exact absurd h (by simp)
        · split at h
          · exact absurd h (by simp)
          · simp only [Except.ok.injEq, Option.some.injEq] at h
            subst h
            exact ⟨rfl, rfl⟩
  · intro h1 h2 h3
    have hs : s ≠ "" := by
      intro hcontra
      subst hcontra
      exact absurd h2 (by simp [parseJsDate])
    simp only [Todo.generateRecurringTodo, h1, h3]
    rw [if_neg (by simp [MetaValue.truthy, hs])]
    rw [show MetaValue.render (.str s) = s from rfl, h2]

/-- Witness: the theorem applied to the concrete recurring task with
due date `"2023-04-10"` and recurrence `"2w"`. -/
theorem c8_witness :
    Todo.generateRecurringTodo c8Task = .ok (some (Todo.setDueDate
      (Todo.setCompletionDate (Todo.setCompleted (Todo.clone c8Task) false) none)
      (formatJsDate (advanceDate ⟨2023, 4, 10⟩ .weekly 2)))) :=
  (c8_generate_recurring c8Task 2 .weekly ⟨2023, 4, 10⟩ "2023-04-10").2.2.2.1
    (by rfl) (by rfl) (by rfl)

/-! ## Claim C9 -/

/-- C9: every extra own property of the constructor's options object —
any name outside the ten reserved ones — is stored verbatim as a
metadata entry under that name. -/
theorem c9_extra_options_metadata (o : Todo.TodoOptions) (k : String)
    (v : MetaValue) (h1 : k ∉ Todo.reservedKeys) (h2 : (k, v) ∈ o.extras)
    (h3 : (o.extras.map Prod.fst).Nodup) :
    kvLookup (Todo.ofOptions o).keyValues k = some v := by
  unfold Todo.ofOptions
  exact extrasFold_mem o.extras _ k v h2 h3 h1

/-- Witness: constructing with `{threshold: "2023-05-01"}` stores
`keyValues["threshold"] = "2023-05-01"`. -/
theorem c9_witness :
    kvLookup (Todo.ofOptions
      { extras := [("threshold", MetaValue.str "2023-05-01")] }).keyValues
      "threshold" = some (.str "2023-05-01") :=
  c9_extra_options_metadata
    { extras := [("threshold", MetaValue.str "2023-05-01")] }
    "threshold" (.str "2023-05-01") (by decide) (by simp) (by simp)

/-! ## Claim C10 -/

/-- C10: `getTasksByContext`/`getTasksByProject` test exact membership;
since parsing only records `@`-prefixed contexts and `+`-prefixed
projects (and `addContext`/`addProject` force the prefix), a query
string without the sigil matches no task: on any list whose stored tags
carry their prefixes it returns the empty list. -/
theorem c10_unsigiled_query_empty (tl : TodoList) (q r line : String)
    (b : DupBehavior) (t : Task)
    (h1 : ∀ t0 ∈ tl.tasks, (∀ c ∈ t0.contexts, headIs '@' c = true) ∧
      (∀ p ∈ t0.projects, headIs '+' p = true))
    (h2 : headIs '@' q = false) (h3 : headIs '+' r = false)
    (h4 : parseTask b (scan line) = .ok t) :
    tl.getTasksByContext q = [] ∧ tl.getTasksByProject r = [] ∧
    (∀ c ∈ t.contexts, headIs '@' c = true) ∧
    (∀ p ∈ t.projects, headIs '+' p = true) := by
  have hw := scan_good line
  have hh := parseHeader_spec (scan line) hw
  unfold parseTask at h4
  have hb := parseBody_fields b (parseHeader (scan line)).2
    (parseHeader (scan line)).1 [] t h4
  refine ⟨?_, ?_, ?_, ?_⟩
  · unfold TodoList.getTasksByContext
    refine List.filter_eq_nil_iff.mpr ?_
    intro t0 ht0 hcon
    have hmem : q ∈ t0.contexts := List.mem_of_elem_eq_true hcon
    have hq := (h1 t0 ht0).1 q hmem
    rw [hq] at h2
    exact absurd h2 (by decide)
  · unfold TodoList.getTasksByProject
    refine List.filter_eq_nil_iff.mpr ?_
    intro t0 ht0 hcon
    have hmem : r ∈ t0.projects := List.mem_of_elem_eq_true hcon
    have hr := (h1 t0 ht0).2 r hmem
    rw [hr] at h3
    exact absurd h3 (by decide)
  · intro c hc
    rcases hb.2.2.2.2.1 c hc with hcin | ⟨tok, htokmem, hty, hval⟩
    · rw [hh.2.2] at hcin
      simp at hcin
    · have hg := scan_good line tok (parseHeader_sub (scan line) tok htokmem)
      rw [← hval]
      exact hg.2.2.1 hty
  · intro p hp
    rcases hb.2.2.2.2.2 p hp with hpin | ⟨tok, htokmem, hty, hval⟩
    · rw [hh.2.1] at hpin
      simp at hpin
    · have hg := scan_good line tok (parseHeader_sub (scan line) tok htokmem)
      rw [← hval]
      exact hg.2.2.2 hty

theorem c10_witness :
    TodoList.getTasksByContext ⟨[c10Task]⟩ "phone" = [] ∧
    TodoList.getTasksByProject ⟨[c10Task]⟩ "Family" = [] ∧
    (∀ c ∈ c10Task.contexts, headIs '@' c = true) ∧
    (∀ p ∈ c10Task.projects, headIs '+' p = true) :=
  c10_unsigiled_query_empty ⟨[c10Task]⟩ "phone" "Family"
    "Call +Family @phone" .overwrite c10Task (by decide) (by rfl) (by rfl)
    (by rfl)

end Todotxt

